import Mathlib

/-!
Verification development for the graviton.TaskManager scheduling core.

The JavaScript sources (Task, IterationTask, Owner, TaskManager) are shallowly
embedded below: JS values are modelled by `JSVal`, JS dictionaries by
association lists keyed by the string coercion of the key, caller-supplied
functions by Lean functions `List JSVal → JSVal`, and side effects (invoking a
task body, notifying an owner, firing a callback, handing control to the
scheduler continuation) by explicit event traces.  All code is single-threaded
and synchronous apart from the host "defer" primitive, which only postpones a
call without reordering it, so a run-to-completion execution is modelled as a
fueled loop.
-/

namespace TaskMgr

/-- Model of a JavaScript value, restricted to the value shapes the sources
manipulate: `undefined`, `null`, booleans, numbers (the sources only use
integral numbers), strings, arrays and plain objects. -/
inductive JSVal where
  | undefined : JSVal
  | null : JSVal
  | bool (b : Bool) : JSVal
  | num (n : Int) : JSVal
  | str (s : String) : JSVal
  | arr (elems : List JSVal) : JSVal
  | obj (fields : List (String × JSVal)) : JSVal
deriving Repr

mutual

/-- Structural equality on `JSVal` (JS `===` on primitives; for the id values
and state strings compared by the sources, `==` and `===` agree except that
`undefined == null`, which `jsEq` below accounts for). -/
def JSVal.beq : JSVal → JSVal → Bool
  | .undefined, .undefined => true
  | .null, .null => true
  | .bool a, .bool b => a == b
  | .num a, .num b => a == b
  | .str a, .str b => a == b
  | .arr a, .arr b => JSVal.beqList a b
  | .obj a, .obj b => JSVal.beqFields a b
  | _, _ => false

def JSVal.beqList : List JSVal → List JSVal → Bool
  | [], [] => true
  | a :: as, b :: bs => JSVal.beq a b && JSVal.beqList as bs
  | _, _ => false

def JSVal.beqFields : List (String × JSVal) → List (String × JSVal) → Bool
  | [], [] => true
  | (k, a) :: as, (l, b) :: bs => k == l && JSVal.beq a b && JSVal.beqFields as bs
  | _, _ => false

end

instance instBEqJSVal : BEq JSVal := ⟨JSVal.beq⟩

mutual

def JSVal.beq_iff : ∀ a b : JSVal, JSVal.beq a b = true ↔ a = b
  | .undefined, b => by cases b <;> simp [JSVal.beq]
  | .null, b => by cases b <;> simp [JSVal.beq]
  | .bool a, b => by cases b <;> simp [JSVal.beq]
  | .num a, b => by cases b <;> simp [JSVal.beq]
  | .str a, b => by cases b <;> simp [JSVal.beq]
  | .arr a, b => by
      cases b <;> simp [JSVal.beq]
      exact JSVal.beqList_iff a _
  | .obj a, b => by
      cases b <;> simp [JSVal.beq]
      exact JSVal.beqFields_iff a _

def JSVal.beqList_iff : ∀ a b : List JSVal, JSVal.beqList a b = true ↔ a = b
  | [], b => by cases b <;> simp [JSVal.beqList]
  | x :: xs, b => by
      cases b with
      | nil => simp [JSVal.beqList]
      | cons y ys =>
          simp [JSVal.beqList, Bool.and_eq_true]
          exact and_congr (JSVal.beq_iff x y) (JSVal.beqList_iff xs ys)

def JSVal.beqFields_iff :
    ∀ a b : List (String × JSVal), JSVal.beqFields a b = true ↔ a = b
  | [], b => by cases b <;> simp [JSVal.beqFields]
  | (k, x) :: xs, b => by
      cases b with
      | nil => simp [JSVal.beqFields]
      | cons p ys =>
          obtain ⟨l, y⟩ := p
          simp [JSVal.beqFields, Bool.and_eq_true, and_assoc]
          intro _
          exact and_congr (JSVal.beq_iff x y) (JSVal.beqFields_iff xs ys)

end

instance : DecidableEq JSVal := fun a b =>
  decidable_of_iff (JSVal.beq a b = true) (JSVal.beq_iff a b)

instance : LawfulBEq JSVal where
  eq_of_beq h := (JSVal.beq_iff _ _).1 h
  rfl := (JSVal.beq_iff _ _).2 rfl

/-- JS truthiness: `undefined`, `null`, `false`, `0` and `""` are falsy,
everything else (including every array and object) is truthy. -/
def truthy : JSVal → Bool
  | .undefined => false
  | .null => false
  | .bool b => b
  | .num n => n != 0
  | .str s => s != ""
  | .arr _ => true
  | .obj _ => true

/-- JS loose equality `==` restricted to the value domains the sources compare
(state strings against state strings or `undefined`, id primitives against id
primitives): `undefined == null` holds, otherwise structural. -/
def jsEq (a b : JSVal) : Bool :=
  match a, b with
  | .undefined, .null => true
  | .null, .undefined => true
  | _, _ => a == b

mutual

/-- JS string coercion, used for dictionary property keys
(`tasks[task.id]` coerces the id to a string; an array coerces to its
comma-joined elements, so a one-element array coerces like its element). -/
def jsToStr : JSVal → String
  | .undefined => "undefined"
  | .null => "null"
  | .bool b => if b then "true" else "false"
  | .num n => toString n
  | .str s => s
  | .arr xs => String.intercalate "," (jsToStrList xs)
  | .obj _ => "[object Object]"

def jsToStrList : List JSVal → List String
  | [] => []
  | x :: xs => jsToStr x :: jsToStrList xs

end

/-- Association-list lookup modelling JS dictionary property read. -/
def dictGet {α : Type} (d : List (String × α)) (k : String) : Option α :=
  (d.find? (fun p => p.1 == k)).map (fun p => p.2)

/-- JS dictionary property write: replaces an existing key in place, otherwise
appends (JS objects preserve insertion order of string keys). -/
def dictSet {α : Type} (d : List (String × α)) (k : String) (v : α) :
    List (String × α) :=
  match d with
  | [] => [(k, v)]
  | (k0, v0) :: rest =>
      if k0 == k then (k0, v) :: rest else (k0, v0) :: dictSet rest k v

/-- JS `delete d[k]`. -/
def dictDel {α : Type} (d : List (String × α)) (k : String) :
    List (String × α) :=
  match d with
  | [] => []
  | (k0, v0) :: rest =>
      if k0 == k then rest else (k0, v0) :: dictDel rest k

/-! ## Task (src/unnamed/part_000, second file: `Task.Task`) -/

/-- The `Task.Task` statics `state` dictionary.  A lookup of a key that is not
declared (such as `CANCEL` or `PAUSE`, which `destroy` and `pause` reference)
yields `undefined`, exactly as a missing JS property read does. -/
def stateDict : String → JSVal
  | "PENDING" => .str "pending"
  | "ACTIVE" => .str "active"
  | "COMPLETE" => .str "complete"
  | "CANCELLED" => .str "cancelled"
  | "PAUSED" => .str "paused"
  | _ => .undefined

/-- A `Task.Task` instance.  The caller-supplied work function `fn` is opaque
to the scheduler; it is modelled as a Lean function from its JS argument list
to its JS return value (`none` models the released/`null` function reference
after `destroy`).  All other fields mirror the source properties. -/
structure Task where
  id : JSVal := .null
  fn : Option (List JSVal → JSVal) := none
  arguments : JSVal := .null
  name : JSVal := .str ""
  activeOnly : Bool := false
  context : JSVal := .null
  subTasks : JSVal := .null
  result : JSVal := .null
  callback : JSVal := .null
  state : JSVal := .null

/-- Configuration record passed to `Task.construct`.  Fields the caller omits
are `undefined`. -/
structure TaskConfig where
  id : JSVal := .undefined
  fn : Option (List JSVal → JSVal) := none
  arguments : JSVal := .undefined
  name : JSVal := .undefined
  context : JSVal := .undefined
  callback : JSVal := .undefined
  activeOnly : JSVal := .undefined
  subTasks : JSVal := .undefined

/-- Initial value of the module-level `_taskIdCounter` (`var _taskIdCounter = 0`). -/
def taskIdCounterInit : Int := 0

/-- `Task.construct(config)`, threaded with the module-level `_taskIdCounter`.

Mirrors the source line by line; in particular:
* `this.id = config.id || _taskIdCounter++` assigns the counter value (and
  post-increments it) whenever the supplied id is falsy;
* `config.callback && (this.callback - config.callback)` is an expression
  statement whose right-hand side is a subtraction, not an assignment, so
  `callback` keeps its prototype value `null` no matter what the config holds. -/
def Task.construct (config : TaskConfig) (taskIdCounter : Int) : Task × Int :=
  let arguments : JSVal :=
    if truthy config.arguments then
      match config.arguments with
      | .arr xs => .arr xs
      | v => .arr [v]
    else .arr []
  let idAndCounter : JSVal × Int :=
    if truthy config.id then (config.id, taskIdCounter)
    else (.num taskIdCounter, taskIdCounter + 1)
  ({ id := idAndCounter.1
     fn := config.fn
     arguments := arguments
     activeOnly := truthy config.activeOnly
     name := if truthy config.name then config.name else .str ""
     context := if truthy config.context then config.context else .null
     callback := .null
     subTasks := if truthy config.subTasks then config.subTasks else .null
     result := .null
     state := stateDict "PENDING" }, idAndCounter.2)

/-- `Task.isComplete()`. -/
def Task.isComplete (t : Task) : Bool :=
  jsEq t.state (stateDict "COMPLETE")

/-- `Task.destroy()`: if not COMPLETE, the state is assigned
`this.statics.state.CANCEL` — a key the statics dictionary does not declare, so
the read yields `undefined` — and all references are released. -/
def Task.destroy (t : Task) : Task :=
  let t1 : Task :=
    if !(jsEq t.state (stateDict "COMPLETE")) then
      { t with state := stateDict "CANCEL" }
    else t
  { t1 with arguments := .null, fn := none, context := .null,
            result := .null, callback := .null }

/-- `Task.pause()`: assigns `this.statics.state.PAUSE`, another undeclared key,
so a paused task's state becomes `undefined` rather than `"paused"`. -/
def Task.pause (t : Task) : Task :=
  if !(jsEq t.state (stateDict "COMPLETE")) then
    { t with state := stateDict "PAUSE" }
  else t

/-! ## Owner (src/lib/Task/Owner.js) -/

/-- A `Task.Owner` instance (pre-destroy).  `tasks` and `completedTasks` are JS
dictionaries keyed by the string coercion of the task id; `taskOrder` keeps the
raw id values; `liveTask` is `null` or a task reference. -/
structure Owner where
  id : String := ""
  name : JSVal := .null
  origin : JSVal := .null
  tasks : List (String × Task) := []
  taskOrder : List JSVal := []
  liveTask : Option Task := none
  completedTasks : List (String × Task) := []

/-- `Owner.construct(name, origin)`, threaded with the module-level
`_ownerCounter`. -/
def Owner.construct (name : JSVal) (origin : JSVal) (ownerCounter : Int) :
    Owner × Int :=
  ({ id := "o" ++ toString ownerCounter
     name := name
     origin := origin
     tasks := []
     taskOrder := []
     liveTask := none
     completedTasks := [] }, ownerCounter + 1)

/-- `Owner.add(task)` for a ready-made `Task` instance (the definition branch
constructs a `Task`/`IterationTask` first and then reaches these same two
statements): store under `tasks[task.id]` and push the id onto `taskOrder`. -/
def Owner.add (o : Owner) (task : Task) : Owner :=
  { o with tasks := dictSet o.tasks (jsToStr task.id) task
           taskOrder := o.taskOrder ++ [task.id] }

/-- `Owner.get(taskId)`: pending, then completed, then the live task (compared
by `===` on the id primitives). -/
def Owner.get (o : Owner) (taskId : JSVal) : Option Task :=
  match dictGet o.tasks (jsToStr taskId) with
  | some t => some t
  | none =>
    match dictGet o.completedTasks (jsToStr taskId) with
    | some t => some t
    | none =>
      match o.liveTask with
      | some lt => if lt.id == taskId then some lt else none
      | none => none

/-- Remove the first entry of `order` strictly equal (`===`) to `taskId`;
returns the new list and whether a removal happened. -/
def removeFirst (order : List JSVal) (taskId : JSVal) : List JSVal × Bool :=
  match order with
  | [] => ([], false)
  | tid :: rest =>
      if tid == taskId then (rest, true)
      else
        let r := removeFirst rest taskId
        (tid :: r.1, r.2)

/-- The private `_removeTask(owner, taskId)`: splice the first strictly-equal
entry out of `taskOrder` and, only when one was found, delete the dictionary
entry. -/
def removeTask (o : Owner) (taskId : JSVal) : Owner × Bool :=
  let r := removeFirst o.taskOrder taskId
  if r.2 then
    ({ o with taskOrder := r.1, tasks := dictDel o.tasks (jsToStr taskId) }, true)
  else (o, false)

/-- `Owner.setNext(taskId)`: fails (no state change) when the id is not in the
pending dictionary or not in `taskOrder`; otherwise removes it from both and
installs it as `liveTask`. -/
def Owner.setNext (o : Owner) (taskId : JSVal) : Owner × Bool :=
  match dictGet o.tasks (jsToStr taskId) with
  | none => (o, false)
  | some task =>
      let r := removeTask o taskId
      if r.2 then ({ r.1 with liveTask := some task }, true)
      else (o, false)

/-- One step of the `getNext` inactive-owner scan: find the first id in
`taskOrder` whose pending task has `activeOnly` false, splice it out, and
return it together with the remaining order.  An id missing from the
dictionary would make `task.activeOnly` throw in JS; the tasks/taskOrder
consistency maintained by the owner keeps that unreachable, and the model
skips such an entry. -/
def scanNonActiveOnly (tasks : List (String × Task)) :
    List JSVal → Option (JSVal × List JSVal)
  | [] => none
  | tid :: rest =>
      match dictGet tasks (jsToStr tid) with
      | some t =>
          if !t.activeOnly then some (tid, rest)
          else (scanNonActiveOnly tasks rest).map (fun p => (p.1, tid :: p.2))
      | none => (scanNonActiveOnly tasks rest).map (fun p => (p.1, tid :: p.2))

/-- `Owner.getNext(isActive)`.  The parameter is a raw JS value because the
TaskManager calls this method without an argument, making it `undefined`.

* truthy `isActive`: shift the head of `taskOrder`;
* falsy: scan for the first non-`activeOnly` pending task (the spliced value
  is a one-element array in JS, whose string coercion equals that of the id
  itself, so the subsequent dictionary accesses behave as with the raw id);
* in both cases the found task is deleted from `tasks` and becomes
  `liveTask`; if nothing qualifies the owner is left unchanged. -/
def Owner.getNext (o : Owner) (isActive : JSVal) : Owner × Option Task :=
  if o.taskOrder.length == 0 then (o, none)
  else if truthy isActive then
    match o.taskOrder with
    | [] => (o, none)
    | tid :: rest =>
        let t := dictGet o.tasks (jsToStr tid)
        ({ o with taskOrder := rest
                  tasks := dictDel o.tasks (jsToStr tid)
                  liveTask := t }, t)
  else
    match scanNonActiveOnly o.tasks o.taskOrder with
    | none => (o, none)
    | some (tid, rest) =>
        let key := jsToStr (.arr [tid])
        let t := dictGet o.tasks key
        ({ o with taskOrder := rest
                  tasks := dictDel o.tasks key
                  liveTask := t }, t)

/-- `Owner.completed(task, manualOverride)`.

With `manualOverride` the task is removed from the pending collections (the
removal's failure is ignored) and recorded as completed.  Otherwise the
notification is honoured only when `task === this.liveTask`; reference
identity is modelled as id equality, which agrees with it while task ids are
unique.  Because `liveTask` and the recorded task are then one JS object, the
model keeps `liveTask` pointing at the (updated) task — the source never
clears `liveTask` here. -/
def Owner.completed (o : Owner) (task : Task) (manualOverride : Bool) : Owner :=
  if manualOverride then
    let r := removeTask o task.id
    { r.1 with completedTasks := dictSet r.1.completedTasks (jsToStr task.id) task }
  else
    match o.liveTask with
    | some lt =>
        if lt.id == task.id then
          { o with completedTasks := dictSet o.completedTasks (jsToStr task.id) task
                   liveTask := some task }
        else o
    | none => o

/-- `Owner.hasPending()`. -/
def Owner.hasPending (o : Owner) : Bool :=
  o.taskOrder.length != 0

/-- Result of `Owner.destroy()`: the destroyed live and pending task objects
(still visible to any outside references).  The owner's own `tasks`,
`taskOrder` and `completedTasks` fields are set to `null` afterwards —
modelled by this result type carrying no collections. -/
structure DestroyedOwner where
  liveTask : Option Task
  pendingTasks : List Task

/-- `Owner.destroy()`: cascade `destroy` to the live task (if any) and then to
every task remaining in the pending dictionary, in insertion order. -/
def Owner.destroy (o : Owner) : DestroyedOwner :=
  { liveTask := o.liveTask.map Task.destroy
    pendingTasks := o.tasks.map (fun p => Task.destroy p.2) }

/-! ## Task execution (src/unnamed/part_000: `Task.execute`) -/

/-- Observable side effects of executing a task, in the order they occur. -/
inductive TEvent where
  /-- The task body `fn` was invoked with the given JS argument list. -/
  | fnCall (args : List JSVal) : TEvent
  /-- `owner.completed(this, manualOverride)` was invoked. -/
  | ownerCompleted (manualOverride : Bool) : TEvent
  /-- The task's own `callback` was invoked with the given value. -/
  | callbackCall (v : JSVal) : TEvent
  /-- The scheduler continuation `next` was invoked with the given value. -/
  | continuation (v : JSVal) : TEvent
  /-- The iteration loop yielded a scheduling turn (`_.defer(iterate)`). -/
  | deferYield : TEvent
deriving DecidableEq, Repr

/-- Apply a (possibly released) task function to a JS argument list.  A `none`
function would be a thrown TypeError in JS; it is unreachable in the executions
analysed here. -/
def applyFn (fn : Option (List JSVal → JSVal)) (args : List JSVal) : JSVal :=
  match fn with
  | some f => f args
  | none => .undefined

/-- The JS argument list held in a task's `arguments` array. -/
def argList : JSVal → List JSVal
  | .arr xs => xs
  | _ => []

/-- `Task.execute(owner, next, manualOverride)`.

Returns the updated task, the updated owner, the value the JS function call
returns (the cached result on the idempotence-guard path, `undefined`
otherwise), and the event trace.  On the normal path the source transitions to
ACTIVE, synchronously applies `fn` to `arguments`, transitions to COMPLETE,
notifies the owner, invokes the task's own callback when one is set (it never
is — see `Task.construct`), and finally calls the continuation. -/
def Task.execute (t : Task) (o : Owner) (manualOverride : Bool) :
    Task × Owner × JSVal × List TEvent :=
  if jsEq t.state (stateDict "ACTIVE") || jsEq t.state (stateDict "COMPLETE") then
    (t, o, t.result, [])
  else
    let tActive : Task := { t with state := stateDict "ACTIVE" }
    let r := applyFn tActive.fn (argList tActive.arguments)
    let tDone : Task := { tActive with result := r, state := stateDict "COMPLETE" }
    let o2 := o.completed tDone manualOverride
    let cbEvents : List TEvent :=
      if truthy tDone.callback then [.callbackCall r] else []
    (tDone, o2, .undefined,
      [.fnCall (argList tActive.arguments), .ownerCompleted manualOverride]
        ++ cbEvents ++ [.continuation r])

/-- Number of task-body invocations in a trace. -/
def fnCalls (evs : List TEvent) : Nat :=
  (evs.filter (fun e => match e with | .fnCall _ => true | _ => false)).length

/-- Number of task-callback invocations in a trace. -/
def callbackCalls (evs : List TEvent) : Nat :=
  (evs.filter (fun e => match e with | .callbackCall _ => true | _ => false)).length

/-! ## IterationTask (src/unnamed/part_000, first file) -/

/-- One of the six private iterator factories
(`_eachArray`, …, `_reduceDictionary`). -/
inductive IterKind where
  | eachArray | eachDictionary
  | mapArray | mapDictionary
  | reduceArray | reduceDictionary
deriving DecidableEq, Repr

/-- An `IterationTask` instance: the inherited `Task` fields plus the
iteration fields declared in the class body. -/
structure IterationTask where
  id : JSVal := .null
  fn : Option (List JSVal → JSVal) := none
  arguments : JSVal := .null
  name : JSVal := .str ""
  activeOnly : Bool := false
  context : JSVal := .null
  result : JSVal := .null
  callback : JSVal := .null
  state : JSVal := .null
  step : Int := 1
  isArray : Bool := false
  list : JSVal := .null
  keys : List String := []
  iterationType : JSVal := .null
  iterator : Option IterKind := none
  currentIteration : Int := -1

/-- Configuration for `IterationTask.construct`: the plain task fields plus
`list`, `type` and `step` (the latter two `undefined` when omitted). -/
structure IterConfig extends TaskConfig where
  list : JSVal := .null
  type : JSVal := .undefined
  step : JSVal := .undefined

/-- `IterationTask.construct(config)`: store the list, default the iteration
type to `"each"`, override `step` when supplied, then run the parent
`Task.construct` (which, among the rest, leaves `callback` null — see
`Task.construct`). -/
def IterationTask.construct (config : IterConfig) (taskIdCounter : Int) :
    IterationTask × Int :=
  let base := Task.construct config.toTaskConfig taskIdCounter
  ({ id := base.1.id
     fn := base.1.fn
     arguments := base.1.arguments
     name := base.1.name
     activeOnly := base.1.activeOnly
     context := base.1.context
     result := base.1.result
     callback := base.1.callback
     state := base.1.state
     list := config.list
     iterationType := if truthy config.type then config.type else .str "each"
     step := if truthy config.step then
               match config.step with | .num n => n | _ => 1
             else 1
     isArray := false
     keys := []
     iterator := none
     currentIteration := -1 }, base.2)

/-- `execute` reads `this.type` (lines 114 and 120 of the source), but the
constructor stores the iteration type in `iterationType` and no `type`
property is ever assigned on the instance or its prototype chain (`type`
exists only as a static on the class object), so this property access yields
`undefined`. -/
def IterationTask.typeProperty (_t : IterationTask) : JSVal := .undefined

/-- `this.statics.type`, the static iteration-type dictionary. -/
def iterTypeDict : String → JSVal
  | "EACH" => .str "each"
  | "MAP" => .str "map"
  | "REDUCE" => .str "reduce"
  | _ => .undefined

/-- The `switch (this.type)` iterator selection (a JS `switch` compares with
`===`): `map` and `reduce` pick the corresponding array/dictionary iterator,
everything else falls to the `each` pair. -/
def selectIterator (ty : JSVal) (isArray : Bool) : IterKind :=
  if ty == iterTypeDict "MAP" then
    if isArray then .mapArray else .mapDictionary
  else if ty == iterTypeDict "REDUCE" then
    if isArray then .reduceArray else .reduceDictionary
  else
    if isArray then .eachArray else .eachDictionary

/-- JS array read `xs[i]`: `undefined` outside the index range (including the
negative index `-1` the iteration loop produces on its first application). -/
def arrGet (v : JSVal) (i : Int) : JSVal :=
  match v with
  | .arr xs => if 0 ≤ i then xs.getD i.toNat .undefined else .undefined
  | _ => .undefined

/-- JS array write `xs[i] = v` restricted to in-range indices.  Out-of-range
writes (which create sparse elements or, at `-1`, a string-keyed property) are
modelled as no-ops; they are unreachable here because the map iterators that
perform writes are never selected (see `IterationTask.typeProperty`). -/
def arrSet (v : JSVal) (i : Int) (x : JSVal) : JSVal :=
  match v with
  | .arr xs => if 0 ≤ i ∧ i.toNat < xs.length then .arr (xs.set i.toNat x) else v
  | _ => v

/-- `keys[idx]` as a JS value: the key string, or `undefined` out of range. -/
def keyAt (keys : List String) (i : Int) : JSVal :=
  match i, keys with
  | .ofNat n, _ => ((keys.get? n).map JSVal.str).getD .undefined
  | _, _ => .undefined

/-- JS object property read with a coerced key (`list[key]`; a key of
`undefined` reads the property named `"undefined"`). -/
def objGet (v : JSVal) (key : JSVal) : JSVal :=
  match v with
  | .obj fields => (dictGet fields (jsToStr key)).getD .undefined
  | .arr xs => arrGet (.arr xs) (match key with | .num n => n | _ => -1)
  | _ => .undefined

/-- JS object property write `result[key] = v` (same caveat as `arrSet`: the
dictionary-map iterator performing it is never selected). -/
def objSet (v : JSVal) (key : JSVal) (x : JSVal) : JSVal :=
  match v with
  | .obj fields => .obj (dictSet fields (jsToStr key) x)
  | _ => v

/-- Apply the installed iterator once at index `idx`
(`me.iterator(me.currentIteration)`), returning the updated task and the JS
argument list passed to `fn` (`_eachArray` and friends each build it as in
the source). -/
def applyIterator (t : IterationTask) (idx : Int) : IterationTask × List JSVal :=
  match t.iterator with
  | some .eachArray =>
      (t, [arrGet t.list idx, .num idx, t.list])
  | some .mapArray =>
      let args := [arrGet t.list idx, .num idx, t.list]
      ({ t with result := arrSet t.result idx (applyFn t.fn args) }, args)
  | some .reduceArray =>
      let args := [t.result, arrGet t.list idx, .num idx, t.list]
      ({ t with result := applyFn t.fn args }, args)
  | some .eachDictionary =>
      let key := keyAt t.keys idx
      (t, [objGet t.list key, key, t.list])
  | some .mapDictionary =>
      let key := keyAt t.keys idx
      let args := [objGet t.list key, key, t.list]
      ({ t with result := objSet t.result key (applyFn t.fn args) }, args)
  | some .reduceDictionary =>
      let key := keyAt t.keys idx
      let args := [t.result, objGet t.list key, key, t.list]
      ({ t with result := applyFn t.fn args }, args)
  | none => (t, [])

/-- The `onComplete` closure: transition to COMPLETE, notify the owner, invoke
the (optional) callback, call the continuation. -/
def finishIteration (t : IterationTask) (manualOverride : Bool) :
    IterationTask × List TEvent :=
  let t2 : IterationTask := { t with state := stateDict "COMPLETE" }
  let cb : List TEvent := if truthy t2.callback then [.callbackCall t2.result] else []
  (t2, [.ownerCompleted manualOverride] ++ cb ++ [.continuation t2.result])

/-- The mutually-recursive `iterate`/`nextIteration` pair, run to completion.

`iterate` applies the iterator at `currentIteration` (which starts at `-1`)
and then increments the cursor; `nextIteration` stops when the state is no
longer ACTIVE or PENDING, re-enters `iterate` while the cursor is below the
captured length (after a `_.defer` yield whenever `cursor % step == 0`), and
otherwise runs `onComplete`.  The host defer only postpones the recursive call
to the next tick without reordering anything, so the run-to-completion
behaviour is a straight loop; the fuel argument is a model artifact and every
theorem supplies more fuel than the loop can consume. -/
def iterLoop (manualOverride : Bool) (length : Int) :
    Nat → IterationTask → IterationTask × List TEvent
  | 0, t => (t, [])
  | fuel + 1, t =>
      let a := applyIterator t t.currentIteration
      let t1 : IterationTask := { a.1 with currentIteration := a.1.currentIteration + 1 }
      let idx := t1.currentIteration
      if !(jsEq t1.state (stateDict "ACTIVE") || jsEq t1.state (stateDict "PENDING")) then
        (t1, [.fnCall a.2])
      else if idx < length then
        let pre : List TEvent :=
          if idx % t1.step == 0 then [.fnCall a.2, .deferYield] else [.fnCall a.2]
        let rec1 := iterLoop manualOverride length fuel t1
        (rec1.1, pre ++ rec1.2)
      else
        let fin := finishIteration t1 manualOverride
        (fin.1, .fnCall a.2 :: fin.2)

/-- `IterationTask.execute(owner, next, manualOverride)` run to completion.

Mirrors the source: the idempotence guard first; then the shape decision
(`Array.isArray`), the length capture (array length or snapshotted key count);
the MAP pre-allocation guarded by `!this.result && this.type == MAP`; the
iterator selection switching on `this.type` (both reads go through
`typeProperty`, i.e. yield `undefined`); the transition to ACTIVE; and the
iteration loop.  Returns the task, the JS return value (the cached result on
the guard path, `undefined` otherwise) and the trace. -/
def IterationTask.execute (t : IterationTask) (manualOverride : Bool)
    (fuel : Nat) : IterationTask × JSVal × List TEvent :=
  if jsEq t.state (stateDict "ACTIVE") || jsEq t.state (stateDict "COMPLETE") then
    (t, t.result, [])
  else
    let isArr : Bool := match t.list with | .arr _ => true | _ => false
    let withKeys : IterationTask × Int :=
      match t.list with
      | .arr xs => (t, (xs.length : Int))
      | .obj fields =>
          let ks := fields.map (fun p => p.1)
          ({ t with keys := ks }, (ks.length : Int))
      | _ => ({ t with keys := [] }, 0)
    let t1 := withKeys.1
    let length := withKeys.2
    let t2 : IterationTask :=
      if !truthy t1.result && jsEq t1.typeProperty (iterTypeDict "MAP") then
        { t1 with result :=
            (if isArr then .arr (List.replicate length.toNat .undefined) else .obj []) }
      else t1
    let t3 : IterationTask :=
      if t2.iterator.isNone then
        { t2 with iterator := some (selectIterator t2.typeProperty isArr) }
      else t2
    let t4 : IterationTask := { t3 with state := stateDict "ACTIVE" }
    let run := iterLoop manualOverride length fuel t4
    (run.1, .undefined, run.2)

/-! ## TaskManager (src/unnamed/part_002) -/

/-- A priority request record as pushed by the asynchronous branch of
`requireTask` (`callback` is `options.callback || false`). -/
structure PriorityRequest where
  ownerId : String
  taskIds : List JSVal
  callback : JSVal := .bool false
  passResults : Bool := false
  results : List JSVal := []
  currentIdx : Nat := 0

/-- The module-level TaskManager state: registered owners, the owner stack
(top of stack = last element = active owner), the active owner id, the
priority queue and the `_running` flag. -/
structure TMState where
  taskOwners : List (String × Owner) := []
  taskOwnerStack : List String := []
  activeTaskOwner : Option String := none
  priorityStack : List PriorityRequest := []
  running : Bool := false

/-- Scheduler-level observable events of one dispatch pass. -/
inductive MEvent where
  /-- `_.defer(_executeTask, task, owner)` issued from `_performTask`
  (an owner-stack task was scheduled). -/
  | scheduledTask (ownerId : String) (taskId : JSVal) : MEvent
  /-- `_.defer(_executeTask, task, owner)` issued from `_performPriorityTask`. -/
  | scheduledPriorityTask (ownerId : String) (taskId : JSVal) : MEvent
  /-- A drained priority request's callback fired (with its accumulated
  results when `passResults`). -/
  | requestCallback (passResults : Bool) (results : List JSVal) : MEvent
deriving DecidableEq, Repr

/-- Outcome of the `while (task.isComplete() && !completed)` walk inside
`_performPriorityTask`. -/
inductive WalkOutcome where
  /-- The id at `currentIdx` did not resolve (`if (!task) return false`; a
  mid-walk missing id would throw in JS and cannot occur for a request whose
  ids all resolve). -/
  | missing : WalkOutcome
  /-- Every listed task from `currentIdx` on was already COMPLETE; the request
  is exhausted. -/
  | exhausted : WalkOutcome
  /-- The walk stopped at the first not-yet-COMPLETE task. -/
  | found (t : Task) : WalkOutcome

/-- The walk loop itself: as long as the current task is COMPLETE, push its
result, advance `currentIdx` and resolve the next id; stop with `found` at the
first incomplete task or with `exhausted` past the last id. -/
def walkWhile (o : Owner) : Nat → PriorityRequest → Task →
    PriorityRequest × WalkOutcome
  | 0, req, _ => (req, .exhausted)
  | fuel + 1, req, task =>
      if task.isComplete then
        let req2 : PriorityRequest :=
          { req with results := req.results ++ [task.result]
                     currentIdx := req.currentIdx + 1 }
        if req2.currentIdx < req.taskIds.length then
          match o.get (req.taskIds.getD req2.currentIdx .undefined) with
          | some t2 => walkWhile o fuel req2 t2
          | none => (req2, .missing)
        else (req2, .exhausted)
      else (req, .found task)

/-- Resolve the task at the request's cursor and run the walk. -/
def walkRequest (o : Owner) (fuel : Nat) (req : PriorityRequest) :
    PriorityRequest × WalkOutcome :=
  match o.get (req.taskIds.getD req.currentIdx .undefined) with
  | none => (req, .missing)
  | some task => walkWhile o fuel req task

/-- `_performPriorityTask()`: returns the updated state, the boolean the source
returns (true means a priority task was scheduled for execution) and the pass
events.  The head request is mutated in place; when it is exhausted it is
shifted off and its callback fired, and the function returns false so that
`_performTask` falls through to the owner stack in the same pass. -/
def performPriorityTask (s : TMState) : TMState × Bool × List MEvent :=
  match s.priorityStack with
  | [] => (s, false, [])
  | request :: rest =>
      match dictGet s.taskOwners request.ownerId with
      | none => (s, false, [])
      | some owner =>
          let w := walkRequest owner (request.taskIds.length + 1) request
          match w.2 with
          | .missing => ({ s with priorityStack := w.1 :: rest }, false, [])
          | .exhausted =>
              let evs : List MEvent :=
                if truthy w.1.callback then
                  [.requestCallback w.1.passResults w.1.results]
                else []
              ({ s with priorityStack := rest }, false, evs)
          | .found task =>
              let r := owner.setNext task.id
              let s2 : TMState :=
                { s with priorityStack := w.1 :: rest
                         taskOwners := dictSet s.taskOwners request.ownerId r.1 }
              if r.2 then
                (s2, true, [.scheduledPriorityTask request.ownerId task.id])
              else (s2, false, [])

/-- Ask the current active owner for its next task.  The source calls
`owner.getNext()` with no argument here, so `isActive` is `undefined`. -/
def getNextFromActive (s : TMState) : TMState × Option Task :=
  match s.activeTaskOwner with
  | none => (s, none)
  | some aid =>
      match dictGet s.taskOwners aid with
      | none => (s, none)
      | some owner =>
          let r := owner.getNext .undefined
          ({ s with taskOwners := dictSet s.taskOwners aid r.1 }, r.2)

/-- One `_taskOwnerStack.unshift(_taskOwnerStack.pop())` rotation followed by
re-reading the new top as the active owner. -/
def rotateOnce (s : TMState) : TMState :=
  match s.taskOwnerStack.getLast? with
  | none => s
  | some top =>
      let stack2 := top :: s.taskOwnerStack.dropLast
      { s with taskOwnerStack := stack2, activeTaskOwner := stack2.getLast? }

/-- The owner-rotation loop of `_performTask`: try the active owner, and while
no task is returned and owners remain unchecked, rotate and retry.  The fuel
starts at the stack length, matching `ownersChecked != ownerNum`. -/
def rotateLoop : Nat → TMState → TMState × Option Task
  | 0, s => (s, none)
  | n + 1, s =>
      let r := getNextFromActive s
      match r.2 with
      | some t => (r.1, some t)
      | none =>
          if n == 0 then (r.1, none)
          else rotateLoop n (rotateOnce r.1)

/-- `_performTask()`: one dispatch pass.  Priority queue first; if it scheduled
a task, mark running and stop.  Otherwise, with an empty owner stack, go idle.
Otherwise run the rotation loop; schedule the found task or go idle after a
full rotation. -/
def performTask (s : TMState) : TMState × List MEvent :=
  let p := performPriorityTask s
  let s1 := p.1
  let evs := p.2.2
  if p.2.1 then ({ s1 with running := true }, evs)
  else if s1.taskOwnerStack.length == 0 then ({ s1 with running := false }, evs)
  else
    let r := rotateLoop s1.taskOwnerStack.length s1
    match r.2 with
    | none => ({ r.1 with running := false }, evs)
    | some task =>
        ({ r.1 with running := true },
          evs ++ [.scheduledTask (r.1.activeTaskOwner.getD "") task.id])

/-- `_performImmediateTask(ownerId, taskId)`: resolve the task against its
owner and, unless it is already COMPLETE (whose cached result is returned),
execute it inline with `returnControl = true` (so `manualOverride` is true and
no further pass is deferred).  The function itself falls off the end after an
execution, returning `undefined`. -/
def performImmediateTask (s : TMState) (ownerId : String) (taskId : JSVal) :
    TMState × JSVal × List TEvent :=
  match dictGet s.taskOwners ownerId with
  | none => (s, .undefined, [])
  | some owner =>
      match owner.get taskId with
      | none => (s, .undefined, [])
      | some task =>
          if task.isComplete then (s, task.result, [])
          else
            let e := task.execute owner true
            ({ s with taskOwners := dictSet s.taskOwners ownerId e.2.1 },
              .undefined, e.2.2.2)

/-- Outcome of the synchronous (`immediate = true`) branch of `requireTask`. -/
inductive ImmediateOutcome where
  /-- The branch threw.  After the `_.each`/`_.map` call it evaluates
  `option.callback && options.callback(result)`, and `option` is an
  undeclared identifier (the surrounding code declares only `options`), so a
  ReferenceError is thrown before any callback can run. -/
  | thrown (message : String) : ImmediateOutcome
  /-- A normal return (unreachable in the source as written). -/
  | returned (v : JSVal) : ImmediateOutcome
deriving DecidableEq, Repr

/-- `TaskManager.requireTask(ownerId, taskId, options)` with
`options.immediate` truthy: wrap a lone task id into a one-element array, run
`_performImmediateTask` over the ids back-to-back on the calling thread
(`_.each` when `passResults` is truthy — which returns the id list itself —
and `_.map` — which collects the per-call returns — otherwise), then evaluate
the callback line, which throws the ReferenceError described in
`ImmediateOutcome.thrown`.  Returns the final state, the concatenated task
event traces, the per-call return values, and the outcome. -/
def requireTaskImmediate (s : TMState) (ownerId : String) (taskIdArg : JSVal)
    (passResults : Bool) (_callback : JSVal) :
    TMState × List TEvent × List JSVal × ImmediateOutcome :=
  let taskIds : List JSVal :=
    match taskIdArg with
    | .arr xs => xs
    | v => [v]
  let run := taskIds.foldl
    (fun (acc : TMState × List TEvent × List JSVal) tid =>
      let r := performImmediateTask acc.1 ownerId tid
      (r.1, acc.2.1 ++ r.2.2, acc.2.2 ++ [r.2.1]))
    (s, [], [])
  let _result : JSVal := if passResults then .arr taskIds else .arr run.2.2
  (run.1, run.2.1, run.2.2, .thrown "ReferenceError: option is not defined")

/-! ## Trace projections -/

/-- The argument lists of the task-body invocations in a trace, in order. -/
def fnCallArgs (evs : List TEvent) : List (List JSVal) :=
  evs.filterMap (fun e => match e with | .fnCall args => some args | _ => none)

/-! ## The owner partition invariant -/

/-- The provable part of the spec's owner partition: `taskOrder` lists exactly
the pending dictionary's tasks (by id, in order), pending entries are keyed by
their task's id string and those keys are distinct, the pending keys are
disjoint from the completed keys, and the live task is not pending.  (The
spec's stronger "exactly one of the three sets" fails for the
liveTask/completedTasks pair — see the C9 analysis.) -/
structure OwnerInv (o : Owner) : Prop where
  aligned : o.taskOrder = o.tasks.map (fun p => p.2.id)
  wellKeyed : ∀ p ∈ o.tasks, p.1 = jsToStr p.2.id
  keyNodup : (o.tasks.map (fun p => p.1)).Nodup
  pendCompl : ∀ p ∈ o.tasks, p.1 ∉ o.completedTasks.map (fun q => q.1)
  pendLive : ∀ t, o.liveTask = some t → jsToStr t.id ∉ o.tasks.map (fun p => p.1)

/-! ## Concrete inputs used by the claim analyses -/

/-- The example mapper `fn x => x * 2` from the spec, as a JS function. -/
def mapDouble : List JSVal → JSVal := fun args =>
  match args with
  | .num n :: _ => .num (2 * n)
  | _ => .undefined

/-- C1 input: `IterationTask({list: [1,2,3], type: "map", fn: x => x*2})`. -/
def c1Task : IterationTask :=
  (IterationTask.construct
    { fn := some mapDouble, list := .arr [.num 1, .num 2, .num 3],
      type := .str "map" } 0).1

/-- C2 input: an EACH iteration over the three-element array `[10,20,30]`. -/
def c2Task : IterationTask :=
  (IterationTask.construct
    { fn := some (fun _ => .undefined), list := .arr [.num 10, .num 20, .num 30] } 0).1

/-- C3 input: a pending `activeOnly` task… -/
def c3Task : Task :=
  { id := .str "t1", fn := none, arguments := .arr [], activeOnly := true,
    state := stateDict "PENDING" }

/-- …owned by the only registered owner… -/
def c3Owner : Owner :=
  { id := "o1", name := .str "A", tasks := [("t1", c3Task)],
    taskOrder := [.str "t1"] }

/-- …which is the active (top-of-stack) owner of the scheduler. -/
def c3State : TMState :=
  { taskOwners := [("o1", c3Owner)], taskOwnerStack := ["o1"],
    activeTaskOwner := some "o1" }

/-- C4 counterexample: task `a` is already COMPLETE with result 7. -/
def c4TaskA : Task :=
  { id := .str "a", state := stateDict "COMPLETE", result := .num 7 }

/-- C4 counterexample: task `b` is pending and listed by the second request. -/
def c4TaskB : Task := { id := .str "b", state := stateDict "PENDING" }

/-- C4 counterexample: `c` is a pending plain owner-stack task. -/
def c4TaskC : Task := { id := .str "c", state := stateDict "PENDING" }

/-- C4 counterexample owner: `c` and `b` pending, `a` completed. -/
def c4Owner : Owner :=
  { id := "o1", tasks := [("c", c4TaskC), ("b", c4TaskB)],
    taskOrder := [.str "c", .str "b"], completedTasks := [("a", c4TaskA)] }

/-- C4 counterexample: the head priority request lists only the already
completed task `a`. -/
def c4ReqA : PriorityRequest :=
  { ownerId := "o1", taskIds := [.str "a"], callback := .str "cb1",
    passResults := true }

/-- C4 counterexample: a second, later-submitted priority request. -/
def c4ReqB : PriorityRequest := { ownerId := "o1", taskIds := [.str "b"] }

/-- C4 counterexample scheduler state: both requests queued, one owner with a
pending owner-stack task. -/
def c4State : TMState :=
  { taskOwners := [("o1", c4Owner)], taskOwnerStack := ["o1"],
    activeTaskOwner := some "o1", priorityStack := [c4ReqA, c4ReqB] }

/-- C4 witness input: a pending task listed by the head priority request. -/
def c4wTask : Task :=
  { id := .str "t", fn := none, arguments := .arr [], state := stateDict "PENDING" }

/-- C4 witness owner holding that task. -/
def c4wOwner : Owner :=
  { id := "o1", tasks := [("t", c4wTask)], taskOrder := [.str "t"] }

/-- C4 witness request. -/
def c4wReq : PriorityRequest := { ownerId := "o1", taskIds := [.str "t"] }

/-- C4 witness scheduler state. -/
def c4wState : TMState :=
  { taskOwners := [("o1", c4wOwner)], taskOwnerStack := ["o1"],
    activeTaskOwner := some "o1", priorityStack := [c4wReq] }

/-- C4 witness: the owner after `setNext` promoted the requested task. -/
def c4wOwner2 : Owner := (c4wOwner.setNext (.str "t")).1

/-- C5 input: a task definition supplying both a work function and a
callback function (the callback reference is modelled by a truthy value). -/
def c5Task : Task :=
  (Task.construct { fn := some (fun _ => .num 42), callback := .str "cb" } 0).1

/-- C5 owner, with the task installed as its live task (as after `getNext`). -/
def c5Owner : Owner := { id := "o1", liveTask := some c5Task }

/-- C6 input: a pending task to require immediately. -/
def c6Task : Task :=
  { id := .str "t1", fn := some (fun _ => .num 5), arguments := .arr [],
    state := stateDict "PENDING" }

/-- C6 owner holding that task. -/
def c6Owner : Owner :=
  { id := "o1", tasks := [("t1", c6Task)], taskOrder := [.str "t1"] }

/-- C6 scheduler state. -/
def c6State : TMState :=
  { taskOwners := [("o1", c6Owner)], taskOwnerStack := ["o1"],
    activeTaskOwner := some "o1" }

/-- C6: the run of `requireTask("o1", ["t1"], {immediate: true, callback})`. -/
def c6Run : TMState × List TEvent × List JSVal × ImmediateOutcome :=
  requireTaskImmediate c6State "o1" (.arr [.str "t1"]) false (.str "cb")

/-- C7 witness: an ACTIVE task with a cached result. -/
def c7Active : Task := { id := .num 1, state := stateDict "ACTIVE", result := .num 9 }

/-- C7 witness: a PENDING task. -/
def c7Pending : Task :=
  { id := .num 2, fn := some (fun _ => .num 3), arguments := .arr [],
    state := stateDict "PENDING" }

/-- C7 witness: a bare owner. -/
def c7Owner : Owner := { id := "o7" }

/-- C7 witness: a COMPLETE iteration task with a cached result. -/
def c7It : IterationTask :=
  { id := .num 3, state := stateDict "COMPLETE", result := .num 11, list := .arr [] }

/-- C8 input: the live (ACTIVE) task of the owner being destroyed. -/
def c8Live : Task := { id := .str "live", state := stateDict "ACTIVE" }

/-- C8 input: a pending task of the owner being destroyed. -/
def c8Pending : Task := { id := .str "p1", state := stateDict "PENDING" }

/-- C8 input: an owner with one pending task and a live task (N = 1). -/
def c8Owner : Owner :=
  { id := "o1", tasks := [("p1", c8Pending)], taskOrder := [.str "p1"],
    liveTask := some c8Live }

/-- C9 input: a pending task with id `"t7"`. -/
def c9Task : Task :=
  { id := .str "t7", fn := some (fun _ => .num 1), arguments := .arr [],
    state := stateDict "PENDING" }

/-- C9: the owner right after `add`. -/
def c9Owner0 : Owner := Owner.add { id := "o1" } c9Task

/-- C9: the owner after the dispatcher pulled the task via `getNext()`. -/
def c9Owner1 : Owner := (c9Owner0.getNext .undefined).1

/-- C9: executing the pulled task against its owner (the normal live path). -/
def c9Exec : Task × Owner × JSVal × List TEvent :=
  match (c9Owner0.getNext .undefined).2 with
  | some t => t.execute c9Owner1 false
  | none => (c9Task, c9Owner1, .undefined, [])

/-- C9: the owner after the normal live-path completion. -/
def c9OwnerFinal : Owner := c9Exec.2.1

/-- C9 witness pending task. -/
def c9Task5 : Task :=
  { id := .str "t5", fn := none, arguments := .arr [], state := stateDict "PENDING" }

/-- C9 witness: a fresh task to add. -/
def c9Task6 : Task :=
  { id := .str "t6", fn := none, arguments := .arr [], state := stateDict "PENDING" }

/-- C9 witness: a single-entry owner satisfying the invariant. -/
def c9wOwner : Owner :=
  { id := "o9", tasks := [("t5", c9Task5)], taskOrder := [.str "t5"] }

/-- C10 witness: a definition whose caller-supplied id is absent. -/
def c10Config : TaskConfig := { fn := some (fun _ => .num 0) }

/-! ## Claim analyses -/

/-- A one-element JS array coerces to the same string as its element
(`[x].toString()` joins with commas), which is why the `getNext` scan's
spliced one-element array works as a dictionary key. -/
theorem jsToStr_singleton (v : JSVal) : jsToStr (.arr [v]) = jsToStr v := rfl

/-- C1 (code bug): for the spec's own example — an `IterationTask` over
`[1,2,3]` with type `map` and `fn x => x*2` — executing to completion does
not produce `[2,4,6]`.  `execute` reads the never-assigned `this.type`
instead of `iterationType`, so the MAP pre-allocation is skipped, the `each`
array iterator is selected, every return value of `fn` is discarded, and the
task completes with `result` still null. -/
theorem c1_map_task_completes_with_null_result :
    (c1Task.execute false 10).1.state = stateDict "COMPLETE" ∧
    (c1Task.execute false 10).1.iterationType = .str "map" ∧
    (c1Task.execute false 10).1.iterator = some IterKind.eachArray ∧
    (c1Task.execute false 10).1.result = JSVal.null ∧
    (c1Task.execute false 10).1.result ≠ JSVal.arr [.num 2, .num 4, .num 6] := by
  simp [c1Task, IterationTask.construct, Task.construct, IterationTask.execute,
        iterLoop, applyIterator, finishIteration, selectIterator,
        IterationTask.typeProperty, iterTypeDict, truthy, jsEq, stateDict,
        arrGet, applyFn, mapDouble]

/-- C2 (code bug): an EACH iteration over the length-3 array `[10,20,30]`
invokes the per-element function four times, not three: `iterate` applies the
iterator at `currentIteration` before incrementing it, and the cursor starts
at `-1`, so the first application passes element `undefined` and index `-1`.
The COMPLETE transition does happen exactly when `currentIteration` reaches
the length. -/
theorem c2_each_applies_length_plus_one_times :
    fnCalls (c2Task.execute false 10).2.2 = 4 ∧
    fnCallArgs (c2Task.execute false 10).2.2 =
      [[.undefined, .num (-1), .arr [.num 10, .num 20, .num 30]],
       [.num 10, .num 0, .arr [.num 10, .num 20, .num 30]],
       [.num 20, .num 1, .arr [.num 10, .num 20, .num 30]],
       [.num 30, .num 2, .arr [.num 10, .num 20, .num 30]]] ∧
    (c2Task.execute false 10).1.currentIteration = 3 ∧
    (c2Task.execute false 10).1.state = stateDict "COMPLETE" := by
  have h : (c2Task.execute false 10).2.2 =
      [.fnCall [.undefined, .num (-1), .arr [.num 10, .num 20, .num 30]], .deferYield,
       .fnCall [.num 10, .num 0, .arr [.num 10, .num 20, .num 30]], .deferYield,
       .fnCall [.num 20, .num 1, .arr [.num 10, .num 20, .num 30]], .deferYield,
       .fnCall [.num 30, .num 2, .arr [.num 10, .num 20, .num 30]],
       .ownerCompleted false, .continuation .null] := by
    simp [c2Task, IterationTask.construct, Task.construct, IterationTask.execute,
          iterLoop, applyIterator, finishIteration, selectIterator,
          IterationTask.typeProperty, iterTypeDict, truthy, jsEq, stateDict,
          arrGet, applyFn]
  refine ⟨by rw [h]; decide, by rw [h]; decide, ?_, ?_⟩ <;>
    simp [c2Task, IterationTask.construct, Task.construct, IterationTask.execute,
          iterLoop, applyIterator, finishIteration, selectIterator,
          IterationTask.typeProperty, iterTypeDict, truthy, jsEq, stateDict,
          arrGet, applyFn]

/-- C3 (code bug): when `_performTask` services the owner stack it calls
`owner.getNext()` with no argument, so `isActive` is `undefined` (falsy) and
the owner scans for a non-`activeOnly` task instead of popping the FIFO head.
With the active owner holding exactly one pending task, an `activeOnly` one,
the dispatch pass schedules nothing and goes idle while the task stays
pending forever; the intended `getNext(true)` call would have returned it. -/
theorem c3_dispatcher_skips_active_owners_activeOnly_task :
    (performTask c3State).2 = [] ∧
    (performTask c3State).1.running = false ∧
    ((dictGet (performTask c3State).1.taskOwners "o1").map Owner.hasPending) =
      some true ∧
    (c3Owner.getNext (.bool true)).2 = some c3Task := by
  refine ⟨?_, ?_, ?_, ?_⟩ <;>
    simp [performTask, performPriorityTask, rotateLoop, getNextFromActive,
          rotateOnce, Owner.getNext, Owner.hasPending, scanNonActiveOnly,
          dictGet, dictSet, dictDel, List.find?, truthy, jsEq,
          jsToStr_singleton, jsToStr, jsToStrList, stateDict, instBEqJSVal,
          JSVal.beq, String.intercalate, String.intercalate.go,
          c3State, c3Owner, c3Task]

/-- C4 (counterexample): with two queued priority requests whose head lists
only an already-COMPLETE task, the dispatch pass pops the head request, fires
its callback, and then schedules an owner-stack task in the very same pass,
although the priority queue still holds the second request — refuting "while
the priority queue is non-empty no owner-stack task is executed". -/
theorem c4_owner_task_scheduled_while_priority_queue_nonempty :
    (performTask c4State).1.priorityStack = [c4ReqB] ∧
    (performTask c4State).2 =
      [.requestCallback true [.num 7], .scheduledTask "o1" (.str "c")] ∧
    (performTask c4State).1.running = true := by
  refine ⟨?_, ?_, ?_⟩ <;>
    simp [performTask, performPriorityTask, walkRequest, walkWhile,
          rotateLoop, getNextFromActive, rotateOnce, Owner.getNext, Owner.get,
          Owner.setNext, removeTask, removeFirst, Task.isComplete,
          scanNonActiveOnly, dictGet, dictSet, dictDel, List.find?, truthy,
          jsEq, jsToStr_singleton, jsToStr, jsToStrList, stateDict,
          instBEqJSVal, JSVal.beq, JSVal.beqList,
          String.intercalate, String.intercalate.go,
          c4State, c4Owner, c4TaskA, c4TaskB, c4TaskC, c4ReqA, c4ReqB]

/-- C5 (code bug): a task constructed from a definition that supplies a
callback never invokes it.  `Task.construct` evaluates
`config.callback && (this.callback - config.callback)` — a subtraction, not
an assignment — so `callback` stays null and the execution trace contains the
body call, the owner notification and the continuation, but no callback
invocation. -/
theorem c5_task_callback_is_never_invoked :
    c5Task.callback = JSVal.null ∧
    (c5Task.execute c5Owner false).2.2.2 =
      [.fnCall [], .ownerCompleted false, .continuation (.num 42)] ∧
    callbackCalls (c5Task.execute c5Owner false).2.2.2 = 0 ∧
    (c5Task.execute c5Owner false).1.state = stateDict "COMPLETE" := by
  refine ⟨?_, ?_, ?_, ?_⟩ <;>
    simp [c5Task, c5Owner, Task.construct, Task.execute, Owner.completed,
          removeTask, removeFirst, dictGet, dictSet, dictDel, List.find?,
          applyFn, argList, truthy, jsEq, jsToStr, jsToStrList, stateDict,
          instBEqJSVal, JSVal.beq, callbackCalls, List.filter]

/-- C6 (code bug): `requireTask("o1", ["t1"], {immediate: true, callback})`
does execute the listed task inline (one body call; the task ends up in the
owner's completed set), but the call then evaluates `option.callback` — an
undeclared identifier, the line above declares `options` — and throws a
ReferenceError before the supplied callback can run.  Moreover the per-call
returns collected by `_.map` are `undefined` (`_performImmediateTask` returns
nothing after executing), so no result values could have been passed anyway. -/
theorem c6_immediate_requireTask_executes_then_throws :
    fnCalls c6Run.2.1 = 1 ∧
    c6Run.2.2.1 = [JSVal.undefined] ∧
    c6Run.2.2.2 = .thrown "ReferenceError: option is not defined" ∧
    ((dictGet c6Run.1.taskOwners "o1").map
        (fun o => (dictGet o.completedTasks "t1").isSome)) = some true := by
  refine ⟨?_, ?_, ?_, ?_⟩ <;>
    simp [c6Run, c6State, c6Owner, c6Task, requireTaskImmediate,
          performImmediateTask, Task.execute, Task.isComplete, Owner.get,
          Owner.completed, removeTask, removeFirst, dictGet, dictSet, dictDel,
          List.find?, applyFn, argList, truthy, jsEq, jsToStr, jsToStrList,
          stateDict, instBEqJSVal, JSVal.beq, fnCalls, List.filter]

/-- C8 (code bug): destroying an owner with one pending task and a live task
does cascade `destroy` to both, but `Task.destroy` assigns
`this.statics.state.CANCEL`, a key the state dictionary does not declare, so
both tasks end with state `undefined`, not `"cancelled"`.  `Task.destroy`
itself is idempotent. -/
theorem c8_destroyed_tasks_end_undefined_not_cancelled :
    ((c8Owner.destroy).pendingTasks.map Task.state) = [JSVal.undefined] ∧
    ((c8Owner.destroy).liveTask.map Task.state) = some JSVal.undefined ∧
    stateDict "CANCEL" = JSVal.undefined ∧
    JSVal.undefined ≠ stateDict "CANCELLED" ∧
    Task.destroy (Task.destroy c8Pending) = Task.destroy c8Pending := by
  refine ⟨?_, ?_, ?_, ?_, ?_⟩ <;>
    simp [c8Owner, c8Pending, c8Live, Owner.destroy, Task.destroy,
          jsEq, stateDict, instBEqJSVal, JSVal.beq]

/-- Characterization of the priority walk when it stops at an incomplete
task: the request's identity fields are unchanged, the cursor only advanced,
every skipped listed task was already COMPLETE, the skipped results were
appended in listed order, and the stop task is the listed task at the new
cursor and is not COMPLETE. -/
theorem walkWhile_found (o : Owner) :
    ∀ (fuel : Nat) (req : PriorityRequest) (task : Task)
      (req2 : PriorityRequest) (t : Task),
    o.get (req.taskIds.getD req.currentIdx .undefined) = some task →
    walkWhile o fuel req task = (req2, .found t) →
    req2.ownerId = req.ownerId ∧
    req2.taskIds = req.taskIds ∧
    req2.callback = req.callback ∧
    req2.passResults = req.passResults ∧
    req.currentIdx ≤ req2.currentIdx ∧
    t.isComplete = false ∧
    o.get (req.taskIds.getD req2.currentIdx .undefined) = some t ∧
    (∀ j : Nat, req.currentIdx ≤ j → j < req2.currentIdx →
        ∃ tj, o.get (req.taskIds.getD j .undefined) = some tj ∧
              tj.isComplete = true) ∧
    req2.results = req.results ++
      (List.range (req2.currentIdx - req.currentIdx)).map
        (fun k => ((o.get (req.taskIds.getD (req.currentIdx + k) .undefined)).map
            Task.result).getD .null) := by
  intro fuel
  induction fuel with
  | zero =>
      intro req task req2 t _ hw
      simp [walkWhile] at hw
  | succ fuel ih =>
      intro req task req2 t hget hw
      by_cases hc : task.isComplete = true
      · simp only [walkWhile, hc, if_true] at hw
        by_cases hlt : req.currentIdx + 1 < req.taskIds.length
        · simp only [hlt, if_true] at hw
          rcases hg2 : o.get (req.taskIds.getD (req.currentIdx + 1) .undefined) with _ | t2
          · simp only [hg2] at hw
            simp at hw
          · simp only [hg2] at hw
            have ihres := ih _ t2 req2 t (by simpa using hg2) hw
            obtain ⟨h1, h2, h3, h4, h5, h6, h7, h8, h9⟩ := ihres
            simp only at h1 h2 h3 h4 h5 h7 h8 h9
            refine ⟨h1, h2, h3, h4, by omega, h6, h7, ?_, ?_⟩
            · intro j hj1 hj2
              rcases Nat.eq_or_lt_of_le hj1 with hj | hj
              · cases hj
                exact ⟨task, hget, hc⟩
              · exact h8 j (by omega) hj2
            · have hd : req2.currentIdx - req.currentIdx =
                  (req2.currentIdx - (req.currentIdx + 1)) + 1 := by omega
              have hcongr :
                  (List.range (req2.currentIdx - (req.currentIdx + 1))).map
                      ((fun k =>
                        ((o.get (req.taskIds.getD (req.currentIdx + k) .undefined)).map
                            Task.result).getD .null) ∘ Nat.succ) =
                  (List.range (req2.currentIdx - (req.currentIdx + 1))).map
                      (fun k =>
                        ((o.get (req.taskIds.getD (req.currentIdx + 1 + k) .undefined)).map
                            Task.result).getD .null) := by
                refine List.map_congr_left (fun k _ => ?_)
                have harith : req.currentIdx + Nat.succ k = req.currentIdx + 1 + k := by
                  omega
                simp only [Function.comp_apply, harith]
              rw [h9, hd, List.range_succ_eq_map, List.map_cons, List.map_map, hcongr]
              have hget2 : o.get (req.taskIds[req.currentIdx]?.getD .undefined) = some task := by
                simpa [List.getD] using hget
              simp [hget2, List.append_assoc]
        · simp [hlt] at hw
      · rw [Bool.not_eq_true] at hc
        simp only [walkWhile, hc, Bool.false_eq_true, if_false] at hw
        have hpair : req = req2 ∧ task = t := by simpa using hw
        obtain ⟨hreqEq, htEq⟩ := hpair
        subst hreqEq
        subst htEq
        refine ⟨rfl, rfl, rfl, rfl, Nat.le_refl _, hc, hget, ?_, ?_⟩
        · intro j hj1 hj2
          omega
        · simp

/-- C4 (amended): in every dispatch pass whose head priority request still
has a next incomplete task — resolving against its owner, with a successful
`setNext` promotion — that task is scheduled and no owner-stack task runs in
that pass; only the head request is serviced (FIFO across requests, the tail
untouched); within the request, ids are walked in listed order with every
skipped task already COMPLETE and its result accumulated in order.  The
original claim's "while the priority queue is non-empty no owner-stack task
is executed" does not hold when the head request is exhausted: it is popped
and the same pass falls through to owner-stack work even though later
requests remain queued (see the counterexample theorem). -/
theorem c4_priority_pass_services_head_request :
    ∀ (s : TMState) (req : PriorityRequest) (rest : List PriorityRequest)
      (owner owner2 : Owner) (req2 : PriorityRequest) (task : Task),
    s.priorityStack = req :: rest →
    dictGet s.taskOwners req.ownerId = some owner →
    walkRequest owner (req.taskIds.length + 1) req = (req2, .found task) →
    owner.setNext task.id = (owner2, true) →
    performTask s =
      ({ s with
          priorityStack := req2 :: rest
          taskOwners := dictSet s.taskOwners req.ownerId owner2
          running := true },
        [.scheduledPriorityTask req.ownerId task.id]) ∧
    task.isComplete = false ∧
    req2.taskIds = req.taskIds ∧
    req.currentIdx ≤ req2.currentIdx ∧
    owner.get (req.taskIds.getD req2.currentIdx .undefined) = some task ∧
    (∀ j : Nat, req.currentIdx ≤ j → j < req2.currentIdx →
        ∃ tj, owner.get (req.taskIds.getD j .undefined) = some tj ∧
              tj.isComplete = true) ∧
    req2.results = req.results ++
      (List.range (req2.currentIdx - req.currentIdx)).map
        (fun k => ((owner.get (req.taskIds.getD (req.currentIdx + k) .undefined)).map
            Task.result).getD .null) := by
  intro s req rest owner owner2 req2 task hps hdo hwr hsn
  have hwalk : ∃ task0,
      owner.get (req.taskIds.getD req.currentIdx .undefined) = some task0 ∧
      walkWhile owner (req.taskIds.length + 1) req task0 = (req2, .found task) := by
    rcases hg : owner.get (req.taskIds.getD req.currentIdx .undefined) with _ | task0
    · rw [walkRequest, hg] at hwr
      simp at hwr
    · rw [walkRequest, hg] at hwr
      exact ⟨task0, rfl, hwr⟩
  obtain ⟨task0, hget0, hww⟩ := hwalk
  have hprops := walkWhile_found owner _ req task0 req2 task hget0 hww
  obtain ⟨_, h2, _, _, h5, h6, h7, h8, h9⟩ := hprops
  refine ⟨?_, h6, h2, h5, h7, h8, h9⟩
  simp only [performTask, performPriorityTask, hps, hdo, hwr, hsn, if_true]

/-- Witness for C4-as-amended: a concrete pass with one queued request
listing one pending task. -/
theorem c4_priority_pass_services_head_request_witness :
    performTask c4wState =
      ({ c4wState with
          priorityStack := ([] : List PriorityRequest).cons c4wReq
          taskOwners := dictSet c4wState.taskOwners c4wReq.ownerId c4wOwner2
          running := true },
        [.scheduledPriorityTask c4wReq.ownerId c4wTask.id]) ∧
    c4wTask.isComplete = false :=
  ⟨(c4_priority_pass_services_head_request c4wState c4wReq [] c4wOwner c4wOwner2
      c4wReq c4wTask rfl rfl rfl rfl).1,
   (c4_priority_pass_services_head_request c4wState c4wReq [] c4wOwner c4wOwner2
      c4wReq c4wTask rfl rfl rfl rfl).2.1⟩

/-- Body-invocation counts add up over concatenated traces. -/
theorem fnCalls_append (a b : List TEvent) :
    fnCalls (a ++ b) = fnCalls a + fnCalls b := by
  simp [fnCalls, List.filter_append]

/-- C7: re-invoking `execute` on an ACTIVE or COMPLETE task — plain or
iteration — performs no body call, no state transition, no owner
notification and no callback or continuation, and returns the cached result;
and executing a PENDING plain task runs the body exactly once, ending
COMPLETE. -/
theorem c7_execute_is_idempotent :
    (∀ (t : Task) (o : Owner) (mo : Bool),
        (jsEq t.state (stateDict "ACTIVE") ||
         jsEq t.state (stateDict "COMPLETE")) = true →
        t.execute o mo = (t, o, t.result, [])) ∧
    (∀ (t : Task) (o : Owner) (mo : Bool),
        t.state = stateDict "PENDING" →
        fnCalls (t.execute o mo).2.2.2 = 1 ∧
        (t.execute o mo).1.state = stateDict "COMPLETE") ∧
    (∀ (it : IterationTask) (mo : Bool) (fuel : Nat),
        (jsEq it.state (stateDict "ACTIVE") ||
         jsEq it.state (stateDict "COMPLETE")) = true →
        it.execute mo fuel = (it, it.result, [])) := by
  refine ⟨?_, ?_, ?_⟩
  · intro t o mo h
    simp [Task.execute, h]
  · intro t o mo h
    have hc : (jsEq (stateDict "PENDING") (stateDict "ACTIVE") ||
               jsEq (stateDict "PENDING") (stateDict "COMPLETE")) = false := by decide
    refine ⟨?_, ?_⟩
    · by_cases hcb : truthy t.callback = true <;>
        simp [Task.execute, h, hc, hcb, fnCalls, List.filter]
    · simp [Task.execute, h, hc]
  · intro it mo fuel h
    simp [IterationTask.execute, h]

/-- Witness for C7 at concrete tasks: an ACTIVE plain task, a PENDING plain
task and a COMPLETE iteration task. -/
theorem c7_execute_is_idempotent_witness :
    c7Active.execute c7Owner false = (c7Active, c7Owner, c7Active.result, []) ∧
    fnCalls (c7Pending.execute c7Owner false).2.2.2 = 1 ∧
    c7It.execute false 5 = (c7It, c7It.result, []) :=
  ⟨c7_execute_is_idempotent.1 c7Active c7Owner false (by decide),
   (c7_execute_is_idempotent.2.1 c7Pending c7Owner false rfl).1,
   c7_execute_is_idempotent.2.2 c7It false 5 (by decide)⟩

/-- C10: a falsy caller-supplied id (absent, `0`, `""` or `false`) is
discarded: the constructor assigns the current auto-increment counter value
and bumps the counter; the counter starts at 0, so the first auto-generated
id is the number 0; no constructed task ever carries the id `""`; and which
falsy id was supplied makes no difference. -/
theorem c10_falsy_id_replaced_by_counter :
    (∀ (cfg : TaskConfig) (c : Int), truthy cfg.id = false →
        (Task.construct cfg c).1.id = .num c ∧ (Task.construct cfg c).2 = c + 1) ∧
    taskIdCounterInit = 0 ∧
    (∀ cfg : TaskConfig, truthy cfg.id = false →
        (Task.construct cfg taskIdCounterInit).1.id = .num 0) ∧
    (∀ (cfg : TaskConfig) (c : Int), (Task.construct cfg c).1.id ≠ .str "") ∧
    (∀ (cfg cfg2 : TaskConfig) (c : Int),
        truthy cfg.id = false → truthy cfg2.id = false →
        (Task.construct cfg c).1.id = (Task.construct cfg2 c).1.id) := by
  refine ⟨?_, rfl, ?_, ?_, ?_⟩
  · intro cfg c h
    constructor <;> simp [Task.construct, h]
  · intro cfg h
    simp [Task.construct, h, taskIdCounterInit]
  · intro cfg c
    by_cases h : truthy cfg.id = true
    · intro hid
      have : cfg.id = .str "" := by
        simpa [Task.construct, h] using hid
      rw [this] at h
      exact absurd h (by decide)
    · simp only [Bool.not_eq_true] at h
      simp [Task.construct, h]
  · intro cfg cfg2 c h h2
    simp [Task.construct, h, h2]

/-- Witness for C10 at a definition with no id field. -/
theorem c10_falsy_id_replaced_by_counter_witness :
    (Task.construct c10Config taskIdCounterInit).1.id = .num taskIdCounterInit ∧
    (Task.construct c10Config taskIdCounterInit).2 = taskIdCounterInit + 1 ∧
    (Task.construct c10Config 3).1.id ≠ .str "" :=
  ⟨(c10_falsy_id_replaced_by_counter.1 c10Config taskIdCounterInit rfl).1,
   (c10_falsy_id_replaced_by_counter.1 c10Config taskIdCounterInit rfl).2,
   c10_falsy_id_replaced_by_counter.2.2.2.1 c10Config 3⟩

/-- A successful dictionary lookup returns an entry of the list, keyed by the
looked-up string. -/
theorem dictGet_mem {α : Type} {d : List (String × α)} {k : String} {v : α}
    (h : dictGet d k = some v) : (k, v) ∈ d := by
  unfold dictGet at h
  rcases hf : List.find? (fun p => p.1 == k) d with _ | p
  · rw [hf] at h
    simp at h
  · rw [hf] at h
    simp only [Option.map, Option.bind] at h
    injection h with h
    have hp := List.find?_some hf
    have hmem := List.mem_of_find?_eq_some hf
    have hk : p.1 = k := by simpa using hp
    obtain ⟨p1, p2⟩ := p
    simp only at hk h
    rw [← hk, ← h]
    exact hmem

/-- Reading back the key just written. -/
theorem dictGet_dictSet {α : Type} (d : List (String × α)) (k : String) (v : α) :
    dictGet (dictSet d k v) k = some v := by
  induction d with
  | nil => simp [dictSet, dictGet, List.find?]
  | cons p rest ih =>
      obtain ⟨k0, v0⟩ := p
      by_cases hk : (k0 == k) = true
      · simp [dictSet, dictGet, List.find?, hk]
      · simp only [dictSet, hk, Bool.false_eq_true, if_false]
        simpa [dictGet, List.find?, hk] using ih

/-- Writing an absent key appends the new entry. -/
theorem dictSet_append {α : Type} {d : List (String × α)} {k : String} (v : α)
    (h : k ∉ d.map (fun p => p.1)) : dictSet d k v = d ++ [(k, v)] := by
  induction d with
  | nil => simp [dictSet]
  | cons p rest ih =>
      obtain ⟨k0, v0⟩ := p
      simp only [List.map_cons, List.mem_cons, not_or] at h
      have hk : (k0 == k) = false := by
        simp only [beq_eq_false_iff_ne, ne_eq]
        exact fun he => h.1 he.symm
      simp only [dictSet, hk, Bool.false_eq_true, if_false, List.cons_append,
        List.cons.injEq, true_and]
      exact ih h.2

/-- A key present after a write was present before or is the written key. -/
theorem dictSet_mem_keys {α : Type} {d : List (String × α)} {k k2 : String} {v : α}
    (h : k2 ∈ (dictSet d k v).map (fun p => p.1)) :
    k2 ∈ d.map (fun p => p.1) ∨ k2 = k := by
  induction d with
  | nil => simpa [dictSet] using h
  | cons p rest ih =>
      obtain ⟨k0, v0⟩ := p
      by_cases hk : (k0 == k) = true
      · simp only [dictSet, hk, if_true, List.map_cons, List.mem_cons] at h
        exact Or.inl (by simpa using h)
      · simp only [dictSet, hk, Bool.false_eq_true, if_false, List.map_cons,
          List.mem_cons] at h
        rcases h with h | h
        · exact Or.inl (by simp [h])
        · rcases ih h with hh | hh
          · exact Or.inl (List.mem_cons_of_mem _ hh)
          · exact Or.inr hh

/-- Deleting a key yields a sublist of the dictionary. -/
theorem dictDel_sublist {α : Type} (d : List (String × α)) (k : String) :
    (dictDel d k).Sublist d := by
  induction d with
  | nil => simp [dictDel]
  | cons p rest ih =>
      obtain ⟨k0, v0⟩ := p
      by_cases hk : (k0 == k) = true
      · simp only [dictDel, hk, if_true]
        exact (List.sublist_cons_self _ _)
      · simp only [dictDel, hk, Bool.false_eq_true, if_false]
        exact List.Sublist.cons₂ _ ih

/-- With distinct keys, the deleted key is gone. -/
theorem dictDel_key_not_mem {α : Type} {d : List (String × α)} {k : String}
    (hnd : (d.map (fun p => p.1)).Nodup) :
    k ∉ (dictDel d k).map (fun p => p.1) := by
  induction d with
  | nil => simp [dictDel]
  | cons p rest ih =>
      obtain ⟨k0, v0⟩ := p
      simp only [List.map_cons, List.nodup_cons] at hnd
      by_cases hk : (k0 == k) = true
      · simp only [dictDel, hk, if_true]
        have : k0 = k := by simpa using hk
        rw [← this]
        exact hnd.1
      · simp only [dictDel, hk, Bool.false_eq_true, if_false, List.map_cons,
          List.mem_cons, not_or]
        refine ⟨fun he => ?_, ih hnd.2⟩
        rw [he] at hk
        simp at hk

/-- A successful `removeFirst` found the id in the list. -/
theorem removeFirst_mem {order : List JSVal} {tid : JSVal}
    (h : (removeFirst order tid).2 = true) : tid ∈ order := by
  induction order with
  | nil => simp [removeFirst] at h
  | cons x rest ih =>
      by_cases hx : (x == tid) = true
      · have hxe : x = tid := by simpa using hx
        rw [hxe]
        exact List.mem_cons_self _ _
      · simp only [removeFirst, hx, Bool.false_eq_true, if_false] at h
        exact List.mem_cons_of_mem _ (ih h)

/-- `removeFirst` succeeds on any present id. -/
theorem removeFirst_success_of_mem {order : List JSVal} {tid : JSVal}
    (h : tid ∈ order) : (removeFirst order tid).2 = true := by
  induction order with
  | nil => simp at h
  | cons x rest ih =>
      by_cases hx : (x == tid) = true
      · simp [removeFirst, hx]
      · simp only [removeFirst, hx, Bool.false_eq_true, if_false]
        rcases List.mem_cons.mp h with he | hm
        · rw [he] at hx
          simp at hx
        · exact ih hm

/-- Removing a present id from the order list and deleting its key from an
aligned, well-keyed, distinct-keys dictionary remove the same entry. -/
theorem removeFirst_dictDel_aligned {tasks : List (String × Task)} {tid : JSVal}
    (hwk : ∀ p ∈ tasks, p.1 = jsToStr p.2.id)
    (hnd : (tasks.map (fun p => p.1)).Nodup)
    (hs : (removeFirst (tasks.map (fun p => p.2.id)) tid).2 = true) :
    (removeFirst (tasks.map (fun p => p.2.id)) tid).1 =
      (dictDel tasks (jsToStr tid)).map (fun p => p.2.id) := by
  induction tasks with
  | nil => simp [removeFirst] at hs
  | cons p rest ih =>
      obtain ⟨k0, t0⟩ := p
      have hk0 : k0 = jsToStr t0.id := hwk _ (List.mem_cons_self _ _)
      simp only [List.map_cons] at hs ⊢
      by_cases hx : (t0.id == tid) = true
      · have hte : t0.id = tid := by simpa using hx
        simp only [removeFirst, hx, if_true]
        have hkk : (k0 == jsToStr tid) = true := by simp [hk0, hte]
        simp [dictDel, hkk]
      · simp only [removeFirst, hx, Bool.false_eq_true, if_false] at hs ⊢
        have hmem : tid ∈ rest.map (fun p => p.2.id) := removeFirst_mem hs
        have hkey : jsToStr tid ∈ rest.map (fun p => p.1) := by
          rcases List.mem_map.mp hmem with ⟨q, hq, hqe⟩
          exact List.mem_map.mpr
            ⟨q, hq, by rw [hwk q (List.mem_cons_of_mem _ hq), hqe]⟩
        simp only [List.map_cons, List.nodup_cons] at hnd
        have hne : (k0 == jsToStr tid) = false := by
          simp only [beq_eq_false_iff_ne, ne_eq]
          intro he
          rw [he] at hnd
          exact hnd.1 hkey
        simp only [dictDel, hne, Bool.false_eq_true, if_false, List.map_cons,
          List.cons.injEq, true_and]
        exact ih (fun q hq => hwk q (List.mem_cons_of_mem _ hq)) hnd.2 hs

/-- Lookup skips a prefix that does not hold the key. -/
theorem dictGet_append_of_not_mem {α : Type} {pre post : List (String × α)}
    {k : String} (h : k ∉ pre.map (fun p => p.1)) :
    dictGet (pre ++ post) k = dictGet post k := by
  induction pre with
  | nil => simp
  | cons p rest ih =>
      obtain ⟨k0, v0⟩ := p
      simp only [List.map_cons, List.mem_cons, not_or] at h
      have hk : (k0 == k) = false := by
        simp only [beq_eq_false_iff_ne, ne_eq]
        exact fun he => h.1 he.symm
      simp only [List.cons_append, dictGet, List.find?, hk]
      exact ih h.2

/-- Characterization of the `getNext` inactive scan over an aligned owner
dictionary (the scan is run on the whole dictionary but walks the order list,
which mirrors a suffix of the dictionary): a found id names a non-`activeOnly`
entry of the suffix, and the remaining order mirrors the suffix with that
entry deleted. -/
theorem scanNonActiveOnly_aligned (post : List (String × Task)) :
    ∀ (pre : List (String × Task)) (tid : JSVal) (rest2 : List JSVal),
    (∀ p ∈ pre ++ post, p.1 = jsToStr p.2.id) →
    ((pre ++ post).map (fun p => p.1)).Nodup →
    scanNonActiveOnly (pre ++ post) (post.map (fun p => p.2.id)) =
      some (tid, rest2) →
    ∃ t, dictGet (pre ++ post) (jsToStr tid) = some t ∧ t.id = tid ∧
         t.activeOnly = false ∧
         rest2 = (dictDel post (jsToStr tid)).map (fun p => p.2.id) ∧
         jsToStr tid ∈ post.map (fun p => p.1) := by
  induction post with
  | nil =>
      intro pre tid rest2 _ _ hscan
      simp [scanNonActiveOnly] at hscan
  | cons p postRest ih =>
      intro pre tid rest2 hwk hnd hscan
      obtain ⟨k0, t0⟩ := p
      have hmem0 : (k0, t0) ∈ pre ++ (k0, t0) :: postRest :=
        List.mem_append_right _ (List.mem_cons_self _ _)
      have hk0 : k0 = jsToStr t0.id := hwk _ hmem0
      have hpre : k0 ∉ pre.map (fun p => p.1) := by
        rw [List.map_append, List.nodup_append] at hnd
        intro hin
        exact absurd (by simp : k0 ∈ ((k0, t0) :: postRest).map (fun p => p.1))
          (hnd.2.2 hin)
      have hget0 : dictGet (pre ++ (k0, t0) :: postRest) (jsToStr t0.id) =
          some t0 := by
        rw [← hk0, dictGet_append_of_not_mem hpre]
        simp [dictGet, List.find?]
      simp only [List.map_cons, scanNonActiveOnly, hget0] at hscan
      by_cases hao : t0.activeOnly = true
      · simp only [hao, Bool.not_true, Bool.false_eq_true, if_false] at hscan
        rcases hsc : scanNonActiveOnly (pre ++ (k0, t0) :: postRest)
            (postRest.map (fun p => p.2.id)) with _ | pr
        · rw [hsc] at hscan
          simp at hscan
        · rw [hsc] at hscan
          obtain ⟨tid2, rest3⟩ := pr
          simp only [Option.map, List.cons.injEq, Option.some.injEq,
            Prod.mk.injEq] at hscan
          obtain ⟨htid, hrest⟩ := hscan
          have hassoc : pre ++ (k0, t0) :: postRest =
              (pre ++ [(k0, t0)]) ++ postRest := by
            simp
          rw [hassoc] at hsc hwk hnd
          have ihres := ih (pre ++ [(k0, t0)]) tid2 rest3 hwk hnd hsc
          obtain ⟨t, ht1, ht2, ht3, ht4, ht5⟩ := ihres
          have hne : (k0 == jsToStr tid2) = false := by
            simp only [beq_eq_false_iff_ne, ne_eq]
            intro he
            rw [List.map_append, List.nodup_append] at hnd
            have hin : k0 ∈ (pre ++ [(k0, t0)]).map (fun p => p.1) := by simp
            rw [← he] at ht5
            exact hnd.2.2 hin ht5
          subst htid
          subst hrest
          refine ⟨t, by rw [hassoc]; exact ht1, ht2, ht3, ?_, ?_⟩
          · simp only [dictDel, hne, Bool.false_eq_true, if_false,
              List.map_cons, List.cons.injEq, true_and]
            exact ht4
          · simp only [List.map_cons, List.mem_cons]
            exact Or.inr ht5
      · rw [Bool.not_eq_true] at hao
        simp only [hao, Bool.not_false, if_true, Option.some.injEq,
          Prod.mk.injEq] at hscan
        obtain ⟨htid, hrest⟩ := hscan
        refine ⟨t0, ?_, by rw [htid], hao, ?_, ?_⟩
        · rw [← htid]
          exact hget0
        · rw [← hrest, ← htid]
          have hkk : (k0 == jsToStr t0.id) = true := by simp [hk0]
          simp [dictDel, hkk]
        · rw [← htid, ← hk0]
          simp

/-- `Owner.add` preserves the owner invariant for a task whose id string is
fresh with respect to the pending, completed and live sets. -/
theorem OwnerInv.add {o : Owner} (hinv : OwnerInv o) (task : Task)
    (hfp : jsToStr task.id ∉ o.tasks.map (fun p => p.1))
    (hfc : jsToStr task.id ∉ o.completedTasks.map (fun q => q.1))
    (hfl : ∀ lt, o.liveTask = some lt → jsToStr task.id ≠ jsToStr lt.id) :
    OwnerInv (o.add task) := by
  obtain ⟨hal, hwk, hnd, hpc, hpl⟩ := hinv
  have happ : dictSet o.tasks (jsToStr task.id) task =
      o.tasks ++ [(jsToStr task.id, task)] := dictSet_append task hfp
  refine ⟨?_, ?_, ?_, ?_, ?_⟩ <;> simp only [Owner.add, happ]
  · simp [List.map_append, hal]
  · intro p hp
    rcases List.mem_append.mp hp with h | h
    · exact hwk p h
    · simp only [List.mem_singleton] at h
      subst h
      rfl
  · simp only [List.map_append, List.nodup_append, List.map_cons, List.map_nil]
    refine ⟨hnd, List.nodup_singleton _, ?_⟩
    intro a ha hb
    simp only [List.mem_singleton] at hb
    subst hb
    exact hfp ha
  · intro p hp
    rcases List.mem_append.mp hp with h | h
    · exact hpc p h
    · simp only [List.mem_singleton] at h
      subst h
      exact hfc
  · intro t ht
    simp only [List.map_append, List.map_cons, List.map_nil, List.mem_append,
      List.mem_singleton, not_or]
    exact ⟨hpl t ht, fun he => hfl t ht he.symm⟩

/-- `Owner.setNext` preserves the owner invariant. -/
theorem OwnerInv.setNext {o : Owner} (hinv : OwnerInv o) (tid : JSVal) :
    OwnerInv (o.setNext tid).1 := by
  obtain ⟨hal, hwk, hnd, hpc, hpl⟩ := hinv
  unfold Owner.setNext
  rcases hg : dictGet o.tasks (jsToStr tid) with _ | task
  · simp only [hg]
    exact ⟨hal, hwk, hnd, hpc, hpl⟩
  · simp only [hg]
    unfold removeTask
    by_cases hr : (removeFirst o.taskOrder tid).2 = true
    · simp only [hr, if_true]
      have hs : (removeFirst (o.tasks.map (fun p => p.2.id)) tid).2 = true := by
        rw [← hal]
        exact hr
      have haligned := removeFirst_dictDel_aligned hwk hnd hs
      have hsub := dictDel_sublist o.tasks (jsToStr tid)
      have hkid : jsToStr tid = jsToStr task.id := by
        have := hwk _ (dictGet_mem hg)
        simpa using this
      refine ⟨?_, ?_, ?_, ?_, ?_⟩
      · show (removeFirst o.taskOrder tid).1 = _
        rw [hal]
        exact haligned
      · intro p hp
        exact hwk p (hsub.subset hp)
      · exact ((hsub.map (fun p => p.1)).nodup hnd)
      · intro p hp
        exact hpc p (hsub.subset hp)
      · intro t ht
        simp only [Option.some.injEq] at ht
        subst ht
        rw [← hkid]
        exact dictDel_key_not_mem hnd
    · simp only [hr, Bool.false_eq_true, if_false]
      exact ⟨hal, hwk, hnd, hpc, hpl⟩

/-- `Owner.getNext` preserves the owner invariant. -/
theorem OwnerInv.getNext {o : Owner} (hinv : OwnerInv o) (isActive : JSVal) :
    OwnerInv (o.getNext isActive).1 := by
  obtain ⟨hal, hwk, hnd, hpc, hpl⟩ := hinv
  unfold Owner.getNext
  by_cases hlen : (o.taskOrder.length == 0) = true
  · simp only [hlen, if_true]
    exact ⟨hal, hwk, hnd, hpc, hpl⟩
  · simp only [hlen, Bool.false_eq_true, if_false]
    by_cases hact : truthy isActive = true
    · simp only [hact, if_true]
      cases horder : o.taskOrder with
      | nil => exact ⟨hal, hwk, hnd, hpc, hpl⟩
      | cons tid rest =>
          cases htasks : o.tasks with
          | nil =>
              rw [horder, htasks] at hal
              simp at hal
          | cons p rest2 =>
              obtain ⟨k0, t0⟩ := p
              have hal2 := hal
              rw [horder, htasks] at hal2
              simp only [List.map_cons, List.cons.injEq] at hal2
              obtain ⟨htid, hrest⟩ := hal2
              have hk0 : k0 = jsToStr t0.id :=
                hwk _ (by rw [htasks]; exact List.mem_cons_self _ _)
              have hget : dictGet ((k0, t0) :: rest2) (jsToStr tid) = some t0 := by
                rw [htid, ← hk0]
                simp [dictGet, List.find?]
              have hdel : dictDel ((k0, t0) :: rest2) (jsToStr tid) = rest2 := by
                rw [htid, ← hk0]
                simp [dictDel]
              rw [htasks] at hnd hpc hwk
              simp only [List.map_cons, List.nodup_cons] at hnd
              simp only [hget, hdel]
              refine ⟨?_, ?_, ?_, ?_, ?_⟩
              · exact hrest
              · intro q hq
                exact hwk q (List.mem_cons_of_mem _ hq)
              · exact hnd.2
              · intro q hq
                exact hpc q (List.mem_cons_of_mem _ hq)
              · intro t ht
                simp only [Option.some.injEq] at ht
                subst ht
                rw [← hk0]
                exact hnd.1
    · simp only [hact, Bool.false_eq_true, if_false]
      rcases hscan : scanNonActiveOnly o.tasks o.taskOrder with _ | pr
      · simp only [hscan]
        exact ⟨hal, hwk, hnd, hpc, hpl⟩
      · obtain ⟨tid, rest2⟩ := pr
        simp only [hscan]
        have hsc2 : scanNonActiveOnly ([] ++ o.tasks)
            (o.tasks.map (fun p => p.2.id)) = some (tid, rest2) := by
          rw [hal] at hscan
          simpa using hscan
        have hres := scanNonActiveOnly_aligned o.tasks [] tid rest2
          (by simpa using hwk) (by simpa using hnd) hsc2
        obtain ⟨t, ht1, ht2, ht3, ht4, ht5⟩ := hres
        simp only [List.nil_append] at ht1
        have hkey : jsToStr (JSVal.arr [tid]) = jsToStr tid :=
          jsToStr_singleton tid
        have hsub := dictDel_sublist o.tasks (jsToStr tid)
        simp only [hkey, ht1]
        refine ⟨?_, ?_, ?_, ?_, ?_⟩
        · simp only
          exact ht4
        · intro q hq
          exact hwk q (hsub.mem hq)
        · exact ((hsub.map (fun p => p.1)).nodup hnd)
        · intro q hq
          exact hpc q (hsub.mem hq)
        · intro tt htt
          simp only [Option.some.injEq] at htt
          subst htt
          rw [ht2]
          exact dictDel_key_not_mem hnd

/-- `Owner.completed` preserves the owner invariant, for a task that is
either structurally pending or whose id string is not a pending key (which
covers every task the scheduler can hand to `completed`: a pending, live or
already-completed task of this owner). -/
theorem OwnerInv.completed {o : Owner} (hinv : OwnerInv o) (task : Task)
    (mo : Bool)
    (htask : task.id ∈ o.taskOrder ∨
      jsToStr task.id ∉ o.tasks.map (fun p => p.1)) :
    OwnerInv (o.completed task mo) := by
  obtain ⟨hal, hwk, hnd, hpc, hpl⟩ := hinv
  unfold Owner.completed
  cases mo with
  | true =>
      simp only [if_true]
      unfold removeTask
      by_cases hr : (removeFirst o.taskOrder task.id).2 = true
      · simp only [hr, if_true]
        have hs : (removeFirst (o.tasks.map (fun p => p.2.id)) task.id).2 =
            true := by
          rw [← hal]
          exact hr
        have haligned := removeFirst_dictDel_aligned hwk hnd hs
        have hsub := dictDel_sublist o.tasks (jsToStr task.id)
        have hknm := dictDel_key_not_mem (d := o.tasks)
          (k := jsToStr task.id) hnd
        refine ⟨?_, ?_, ?_, ?_, ?_⟩
        · show (removeFirst o.taskOrder task.id).1 = _
          rw [hal]
          exact haligned
        · intro p hp
          exact hwk p (hsub.subset hp)
        · exact ((hsub.map (fun p => p.1)).nodup hnd)
        · intro p hp hpin
          rcases dictSet_mem_keys hpin with hold | heq
          · exact hpc p (hsub.subset hp) hold
          · have hmm : p.1 ∈ (dictDel o.tasks (jsToStr task.id)).map
                (fun p => p.1) := List.mem_map.mpr ⟨p, hp, rfl⟩
            rw [heq] at hmm
            exact hknm hmm
        · intro t ht
          intro hin
          exact hpl t ht ((hsub.map (fun p => p.1)).subset hin)
      · simp only [hr, Bool.false_eq_true, if_false]
        have hknotin : jsToStr task.id ∉ o.tasks.map (fun p => p.1) := by
          rcases htask with hmem | hnot
          · exact absurd (removeFirst_success_of_mem hmem) hr
          · exact hnot
        refine ⟨hal, hwk, hnd, ?_, hpl⟩
        intro p hp hpin
        rcases dictSet_mem_keys hpin with hold | heq
        · exact hpc p hp hold
        · have hmm : p.1 ∈ o.tasks.map (fun p => p.1) :=
            List.mem_map.mpr ⟨p, hp, rfl⟩
          rw [heq] at hmm
          exact hknotin hmm
  | false =>
      simp only [Bool.false_eq_true, if_false]
      cases hlive : o.liveTask with
      | none => exact ⟨hal, hwk, hnd, hpc, hpl⟩
      | some lt =>
          by_cases hid : (lt.id == task.id) = true
          · simp only [hid, if_true]
            have hlid : lt.id = task.id := by simpa using hid
            have hknotin : jsToStr task.id ∉ o.tasks.map (fun p => p.1) := by
              have := hpl lt hlive
              rw [hlid] at this
              exact this
            refine ⟨hal, hwk, hnd, ?_, ?_⟩
            · intro p hp hpin
              rcases dictSet_mem_keys hpin with hold | heq
              · exact hpc p hp hold
              · have hmm : p.1 ∈ o.tasks.map (fun p => p.1) :=
                  List.mem_map.mpr ⟨p, hp, rfl⟩
                rw [heq] at hmm
                exact hknotin hmm
            · intro t ht
              simp only [Option.some.injEq] at ht
              subst ht
              exact hknotin
          · simp only [hid, Bool.false_eq_true, if_false]
            exact ⟨hal, hwk, hnd, hpc, hpl⟩

/-- C9 (amended): the partition that actually holds is weaker than claimed —
every pending task id (in `tasks`/`taskOrder`) is in neither `completedTasks`
nor the live slot, and the public operations `add` (with a fresh id),
`setNext`, `getNext` and `completed` preserve this (`destroy` releases the
collections outright); but after a task completes via the normal live-task
path its id is recorded in `completedTasks` while `liveTask` still references
the completed task until a later `getNext`/`setNext` overwrites it, so
"exactly one of the three sets" fails for that pair (see the counterexample
theorem). -/
theorem c9_owner_partition_weakened :
    ∀ o : Owner, OwnerInv o →
      (∀ task : Task,
          jsToStr task.id ∉ o.tasks.map (fun p => p.1) →
          jsToStr task.id ∉ o.completedTasks.map (fun q => q.1) →
          (∀ lt, o.liveTask = some lt → jsToStr task.id ≠ jsToStr lt.id) →
          OwnerInv (o.add task)) ∧
      (∀ tid : JSVal, OwnerInv (o.setNext tid).1) ∧
      (∀ isActive : JSVal, OwnerInv (o.getNext isActive).1) ∧
      (∀ (task : Task) (mo : Bool),
          task.id ∈ o.taskOrder ∨
            jsToStr task.id ∉ o.tasks.map (fun p => p.1) →
          OwnerInv (o.completed task mo)) ∧
      (∀ task : Task, o.liveTask = some task →
          (o.completed task false).liveTask = some task ∧
          dictGet (o.completed task false).completedTasks (jsToStr task.id) =
            some task) := by
  intro o hinv
  refine ⟨fun task hfp hfc hfl => hinv.add task hfp hfc hfl,
          fun tid => hinv.setNext tid,
          fun ia => hinv.getNext ia,
          fun task mo htask => hinv.completed task mo htask,
          fun task hlive => ?_⟩
  have hbeq : (task.id == task.id) = true := by simp
  simp only [Owner.completed, Bool.false_eq_true, if_false, hlive, hbeq,
    if_true]
  exact ⟨by trivial, dictGet_dictSet _ _ _⟩

/-- Witness for C9-as-amended at concrete single-task owners. -/
theorem c9_owner_partition_weakened_witness :
    OwnerInv (c9wOwner.add c9Task6) ∧
    OwnerInv (c9wOwner.setNext (.str "t5")).1 ∧
    OwnerInv (c9wOwner.getNext .undefined).1 ∧
    OwnerInv (c9wOwner.completed c9Task5 true) ∧
    (({ c9wOwner with liveTask := some c9Task6 } : Owner).completed c9Task6
        false).liveTask = some c9Task6 := by
  have hinv : OwnerInv c9wOwner := by
    refine ⟨rfl, by decide, by decide, by decide, fun t ht => nomatch ht⟩
  have hinv2 : OwnerInv ({ c9wOwner with liveTask := some c9Task6 } : Owner) := by
    refine ⟨rfl, by decide, by decide, by decide, fun t ht => ?_⟩
    injection ht with h
    subst h
    decide
  refine ⟨(c9_owner_partition_weakened c9wOwner hinv).1 c9Task6 (by decide)
            (by decide) (fun lt h => nomatch h),
          (c9_owner_partition_weakened c9wOwner hinv).2.1 (.str "t5"),
          (c9_owner_partition_weakened c9wOwner hinv).2.2.1 .undefined,
          (c9_owner_partition_weakened c9wOwner hinv).2.2.2.1 c9Task5 true
            (Or.inl (by decide)),
          ((c9_owner_partition_weakened _ hinv2).2.2.2.2 c9Task6 rfl).1⟩

/-- C9 (counterexample): pulling the single pending task through the
dispatcher path (`getNext()`) and executing it on the normal live path leaves
its id recorded in `completedTasks` while `liveTask` still references the
completed task — the id sits in two of the three sets at once, refuting the
"exactly one" partition. -/
theorem c9_completed_task_still_counted_as_liveTask :
    (c9OwnerFinal.liveTask.map (fun t => t.id)) = some (.str "t7") ∧
    ((dictGet c9OwnerFinal.completedTasks "t7").map (fun t => t.id)) =
      some (.str "t7") ∧
    (c9OwnerFinal.liveTask.map Task.state) = some (stateDict "COMPLETE") ∧
    ((dictGet c9OwnerFinal.completedTasks "t7").map Task.state) =
      some (stateDict "COMPLETE") := by
  refine ⟨?_, ?_, ?_, ?_⟩ <;>
    simp [c9OwnerFinal, c9Exec, c9Owner1, c9Owner0, c9Task, Owner.add,
          Owner.getNext, Owner.completed, Task.execute, scanNonActiveOnly,
          removeTask, removeFirst, dictGet, dictSet, dictDel, List.find?,
          applyFn, argList, truthy, jsEq, jsToStr_singleton, jsToStr,
          jsToStrList, stateDict, instBEqJSVal, JSVal.beq,
          String.intercalate, String.intercalate.go]

end TaskMgr
